import Mathlib

/-!
Verification development for the lasagnedb storage engine.

Shallow embedding of the Rust sources: byte strings are `List Nat`
(each element a byte value), machine integers are `Nat` with explicit
wrap-around where the source can overflow, fallible operations return
`Except` (a Rust panic is modelled as a distinguished error value),
and the concurrent skip-list memtable is modelled as an association
list sorted by the internal-key order, which is the sequential
semantics of the source under a single writer.
-/

set_option maxRecDepth 4000

deriving instance DecidableEq for Except

namespace LasagneDb

/-- Byte strings (`bytes::Bytes` in the source). -/
abbrev Bytes := List Nat

/-- Comparison of machine integers, embedding Rust `u64::cmp`. -/
def natCmp (a b : Nat) : Ordering :=
  if a < b then .lt else if b < a then .gt else .eq

/-- Lexicographic byte-slice comparison, embedding Rust `<[u8] as Ord>::cmp`. -/
def bytesCmp : Bytes → Bytes → Ordering
  | [], [] => .eq
  | [], _ :: _ => .lt
  | _ :: _, [] => .gt
  | a :: as_, b :: bs =>
    match natCmp a b with
    | .lt => .lt
    | .gt => .gt
    | .eq => bytesCmp as_ bs

/-- Operation type of an entry, from `src/value.rs` (`OpType`). -/
inductive OpType where
  | get
  | put
  | delete
deriving DecidableEq, Repr

/-- `OpType::encode`: Get = 255, Put = 1, Delete = 2. -/
def OpType.encode : OpType → Nat
  | .get => 255
  | .put => 1
  | .delete => 2

/-- `OpType::from`: 2 is Delete, 1 is Put, anything else is Get. -/
def OpType.fromU8 (n : Nat) : OpType :=
  if n = 2 then .delete else if n = 1 then .put else .get

/-- Internal key, from `src/value.rs` (`Key`). -/
structure Key where
  user_key : Bytes
  seq_num : Nat
  op_type : OpType
deriving DecidableEq, Repr

/-- `impl Ord for Key` (`Key::cmp`, src/value.rs lines 64-85): user key
ascending; on equal user keys the larger `seq_num` compares smaller; on
equal `seq_num` the op types compare by encoded value, reversed. -/
def Key.cmp (a b : Key) : Ordering :=
  match bytesCmp a.user_key b.user_key with
  | .lt => .lt
  | .gt => .gt
  | .eq =>
    match natCmp a.seq_num b.seq_num with
    | .lt => .gt
    | .gt => .lt
    | .eq => natCmp b.op_type.encode a.op_type.encode

/-- KV entry, from `src/entry.rs` (`Entry`): `meta` is a `u32`. -/
structure Entry where
  meta : Nat
  key : Bytes
  value : Bytes
deriving DecidableEq, Repr

/-- `Entry::size` (src/entry.rs lines 25-27): `4 + 8 + 8 + |key| + |value|`. -/
def Entry.size (e : Entry) : Nat :=
  4 + 8 + 8 + e.key.length + e.value.length

/-- Little-endian encoding of a `u32` value (`put_u32_le`). -/
def u32le (n : Nat) : Bytes :=
  [n % 256, n / 256 % 256, n / 65536 % 256, n / 16777216 % 256]

/-- Little-endian encoding of a `u64` value (`put_u64_le`). -/
def u64le (n : Nat) : Bytes :=
  [n % 256, n / 256 % 256, n / 65536 % 256, n / 16777216 % 256,
   n / 4294967296 % 256, n / 1099511627776 % 256,
   n / 281474976710656 % 256, n / 72057594037927936 % 256]

/-- `Entry::encode` (src/entry.rs lines 41-49): meta as `u32` LE, then
key length as `u64` LE, the key bytes, value length as `u64` LE, and the
value bytes. -/
def Entry.encode (e : Entry) : Bytes :=
  u32le e.meta ++ u64le e.key.length ++ e.key ++ u64le e.value.length ++ e.value

/-- `Entry::op_type` (src/entry.rs lines 33-35): decode the low byte. -/
def Entry.op_type (e : Entry) : OpType :=
  OpType.fromU8 (e.meta &&& 255)

/-- `Entry::value_separate` (src/entry.rs lines 37-39), exactly as written:
`(self.meta >> 8) | 0x1 == 0x1` with Rust precedence, i.e.
`((meta >> 8) | 1) == 1`. -/
def Entry.value_separate (e : Entry) : Bool :=
  ((e.meta >>> 8) ||| 1) == 1

/-- `EntryBuilder` (src/entry.rs lines 70-113). -/
structure EntryBuilder where
  meta : Nat := 0
  key : Bytes := []
  value : Bytes := []
deriving DecidableEq, Repr

/-- `EntryBuilder::new`. -/
def EntryBuilder.new : EntryBuilder := {}

/-- `EntryBuilder::op_type`: or the encoded op type into `meta`. -/
def EntryBuilder.op_type (b : EntryBuilder) (op : OpType) : EntryBuilder :=
  { b with meta := b.meta ||| op.encode }

/-- `EntryBuilder::kv_separate` (src/entry.rs lines 87-94): set or clear
bit 8 of `meta` (`meta |= 1 << 8` resp. `meta &= !(1 << 8)` on `u32`). -/
def EntryBuilder.kv_separate (b : EntryBuilder) (separate : Bool) : EntryBuilder :=
  if separate then { b with meta := b.meta ||| 256 }
  else { b with meta := b.meta &&& 4294967039 }

/-- `EntryBuilder::key_value`. -/
def EntryBuilder.key_value (b : EntryBuilder) (k v : Bytes) : EntryBuilder :=
  { b with key := k, value := v }

/-- `EntryBuilder::build`. -/
def EntryBuilder.build (b : EntryBuilder) : Entry :=
  ⟨b.meta, b.key, b.value⟩

/-- `EntryBuilder::empty`: the all-defaults entry (meta 0, empty key and
value); this is what `BlockIterator` holds at an invalid position. -/
def EntryBuilder.empty : Entry := ⟨0, [], []⟩

lemma bytesCmp_refl (u : Bytes) : bytesCmp u u = .eq := by
  induction u with
  | nil => rfl
  | cons a as_ ih => simp [bytesCmp, natCmp, ih]

lemma natCmp_lt {a b : Nat} (h : a < b) : natCmp a b = .lt := by
  simp [natCmp, h]

lemma natCmp_gt {a b : Nat} (h : b < a) : natCmp a b = .gt := by
  simp [natCmp, h, Nat.not_lt_of_lt h]

/-- C5: `Key::cmp` orders first by user key ascending (lexicographically);
for equal user keys, by `seq_num` descending (the larger `seq_num`
compares smaller); and for equal user key and `seq_num`, a Delete key
compares less than a Put key. -/
theorem c5_internal_key_order : ∀ a b : Key,
    (bytesCmp a.user_key b.user_key = .lt → Key.cmp a b = .lt) ∧
    (bytesCmp a.user_key b.user_key = .gt → Key.cmp a b = .gt) ∧
    (a.user_key = b.user_key → b.seq_num < a.seq_num → Key.cmp a b = .lt) ∧
    (a.user_key = b.user_key → a.seq_num < b.seq_num → Key.cmp a b = .gt) ∧
    (a.user_key = b.user_key → a.seq_num = b.seq_num →
      a.op_type = .delete → b.op_type = .put → Key.cmp a b = .lt) := by
  intro a b
  refine ⟨?_, ?_, ?_, ?_, ?_⟩
  · intro h; simp [Key.cmp, h]
  · intro h; simp [Key.cmp, h]
  · intro hu hs
    simp [Key.cmp, hu, bytesCmp_refl, natCmp_gt hs]
  · intro hu hs
    simp [Key.cmp, hu, bytesCmp_refl, natCmp_lt hs]
  · intro hu hs ha hb
    simp [Key.cmp, hu, bytesCmp_refl, hs, natCmp, ha, hb, OpType.encode]

/-- Witness for C5 on concrete keys. -/
theorem c5_internal_key_order_witness :
    Key.cmp ⟨[97], 1, .delete⟩ ⟨[97], 1, .put⟩ = .lt ∧
    Key.cmp ⟨[97], 1, .get⟩ ⟨[97], 2, .get⟩ = .gt := by
  constructor
  · exact (c5_internal_key_order ⟨[97], 1, .delete⟩ ⟨[97], 1, .put⟩).2.2.2.2
      rfl rfl rfl rfl
  · exact (c5_internal_key_order ⟨[97], 1, .get⟩ ⟨[97], 2, .get⟩).2.2.2.1
      rfl (by decide)

/-- C6: `Entry::value_separate` does not test bit 8 of `meta`.  An entry
built with op type Put and `kv_separate` never enabled has `meta = 1`,
bit 8 clear, yet `value_separate()` returns `true`, because the accessor
computes `((meta >> 8) | 1) == 1` instead of masking bit 8. -/
theorem c6_value_separate_ignores_bit8 :
    (((EntryBuilder.new.op_type .put).key_value [107] [118]).build).meta = 1 ∧
    ((((EntryBuilder.new.op_type .put).key_value [107] [118]).build).meta >>> 8) % 2 = 0 ∧
    (((EntryBuilder.new.op_type .put).key_value [107] [118]).build).value_separate = true ∧
    (((EntryBuilder.new.op_type .delete).key_value [107] []).build).value_separate = true := by
  decide

/-- C7 counterexample: `Entry::size` is not `1 + 8 + |key| + 8 + |value|`;
for the entry with meta 1, one-byte key and one-byte value the source
returns 22 (the meta field is a 4-byte `u32`), not 19. -/
theorem c7_size_not_one_byte_meta :
    Entry.size ⟨1, [107], [118]⟩ = 22 ∧
    ¬ Entry.size ⟨1, [107], [118]⟩ =
      1 + 8 + ([107] : Bytes).length + 8 + ([118] : Bytes).length := by
  decide

lemma u32le_length (n : Nat) : (u32le n).length = 4 := by
  simp [u32le]

lemma u64le_length (n : Nat) : (u64le n).length = 8 := by
  simp [u64le]

/-- C7 amended: the encoded form of an `Entry` is the meta field as a
4-byte little-endian `u32`, then the key length as `u64` LE, the key
bytes, the value length as `u64` LE and the value bytes, and
`Entry::size()` equals `4 + 8 + 8 + |key| + |value|`, which is also the
length of the encoding. -/
theorem c7_amended_layout : ∀ e : Entry,
    Entry.size e = 4 + 8 + 8 + e.key.length + e.value.length ∧
    (Entry.encode e).length = Entry.size e ∧
    (Entry.encode e).take 4 = u32le e.meta ∧
    ((Entry.encode e).drop 4).take 8 = u64le e.key.length ∧
    ((Entry.encode e).drop 12).take e.key.length = e.key ∧
    (((Entry.encode e).drop 12).drop e.key.length).take 8 = u64le e.value.length ∧
    (((Entry.encode e).drop 12).drop e.key.length).drop 8 = e.value := by
  intro e
  refine ⟨rfl, ?_, ?_, ?_, ?_, ?_, ?_⟩
  · simp [Entry.encode, Entry.size, u32le, u64le]
    omega
  · simp [Entry.encode, u32le, u64le, List.take]
  · simp [Entry.encode, u32le, u64le, List.drop, List.take]
  · simp [Entry.encode, u32le, u64le, List.drop, List.take_append]
  · simp [Entry.encode, u32le, u64le, List.drop, List.drop_append]
  · simp [Entry.encode, u32le, u64le, List.drop, List.drop_append]

/-- The memtable (src/memtable/memtable.rs), a concurrent skip-list map
keyed by `Key`; modelled as an association list sorted ascending by
`Key.cmp`, the sequential semantics of `crossbeam_skiplist::SkipMap`. -/
abbrev MemTable := List (Key × Bytes)

/-- `MemTable::put`: `SkipMap::insert` — insert in order, replacing an
entry whose key compares equal. -/
def MemTable.put (mt : MemTable) (key : Key) (value : Bytes) : MemTable :=
  match mt with
  | [] => [(key, value)]
  | e :: rest =>
    match Key.cmp key e.1 with
    | .lt => (key, value) :: e :: rest
    | .eq => (key, value) :: rest
    | .gt => e :: MemTable.put rest key value

/-- `MemTable::get` (src/memtable/memtable.rs lines 37-50):
`range(key..).next()` is the least entry not below `key`; return `none`
if it is a Delete or its user key differs, else the entry. -/
def MemTable.get (mt : MemTable) (key : Key) : Option (Key × Bytes) :=
  match mt.find? (fun e => Key.cmp key e.1 != Ordering.gt) with
  | none => none
  | some e =>
    if e.1.op_type = .delete then none
    else if e.1.user_key ≠ key.user_key then none
    else some e

/-- Meta block of an SST (src/sstable/meta.rs). -/
structure MetaBlock where
  offset : Nat
  first_key : Bytes
  last_key : Bytes
deriving DecidableEq, Repr

/-- An open SST (src/sstable/builder.rs `SsTable`).  The data blocks are
modelled by the flat key-ordered entry list they contain; `fsize` is the
file size reported by `SsTable::size`.  The bloom filter of the external
`bloomfilter` crate is abstracted as the exact set of inserted keys
(sound for its contract: it never reports a false negative). -/
structure SsTable where
  id : Nat
  metas : List MetaBlock
  entries : List Entry
  fsize : Nat
  bloom : Option (List Bytes)
deriving DecidableEq, Repr

/-- `SsTable::maybe_contains_key`: `true` without a filter, else the
filter's answer. -/
def SsTable.maybe_contains_key (t : SsTable) (key : Bytes) : Bool :=
  match t.bloom with
  | none => true
  | some ks => ks.contains key

/-- `SsTable::is_overlap` (src/sstable/builder.rs lines 111-118), exactly
as written: `false` when either side has no blocks, otherwise
`max_key < other_min_key || other_max_key < min_key`. -/
def SsTable.is_overlap (self other : SsTable) : Bool :=
  match self.metas, other.metas with
  | [], _ => false
  | _, [] => false
  | sm :: srest, om :: orest =>
    let min_key := sm.first_key
    let max_key := (srest.getLastD sm).last_key
    let other_min_key := om.first_key
    let other_max_key := (orest.getLastD om).last_key
    (bytesCmp max_key other_min_key == Ordering.lt) ||
      (bytesCmp other_max_key min_key == Ordering.lt)

/-- `SsTable::key_range`: first key of the first meta block and last key
of the last one; `none` models the `unwrap` panic on an SST without
blocks. -/
def SsTable.key_range (t : SsTable) : Option (Bytes × Bytes) :=
  match t.metas with
  | [] => none
  | m :: rest => some (m.first_key, (rest.getLastD m).last_key)

/-- Denotation of `SsTableIterator::create_and_seek_to_key`
(src/sstable/iterator.rs lines 46-67 with src/block/iterator.rs
`seek_to_key`): position on the first entry whose key is not below the
probe, across blocks; `none` when the iterator ends up invalid. -/
def SsTable.seekEntry (t : SsTable) (key : Bytes) : Option Entry :=
  t.entries.find? (fun e => bytesCmp e.key key != Ordering.lt)

/-- Failures of the read path.  `panicked` models a Rust panic (here:
`Buf::get_u32_le` on fewer than 4 remaining bytes). -/
inductive GetErr where
  | panicked
  | missingVSst (vsst_id : Nat)
deriving DecidableEq, Repr

/-- Association-list lookup, modelling `HashMap::get`. -/
def lookupAssoc {α : Type} (m : List (Nat × α)) (k : Nat) : Option α :=
  (m.find? (fun p => p.1 == k)).map (·.2)

/-- `Bytes::get_u32_le` on a value buffer: little-endian `u32` from the
first four bytes; `none` models the panic when fewer remain. -/
def readValueU32le (v : Bytes) : Option Nat :=
  match v with
  | b0 :: b1 :: b2 :: b3 :: _ =>
    some (b0 + 256 * b1 + 65536 * b2 + 16777216 * b3)
  | _ => none

/-- `VSsTableIterator::update_kv` (src/sstable/iterator.rs lines 118-132)
on the current entry: when `value_separate()` holds, the first 4 bytes of
the stored value name a vSST, which is re-seeked at the same key; a
missing vSST is an error; when the vSST seek lands nowhere, the inner
iterator is invalid and its `value()` is the empty entry's value
(release-build semantics of the `debug_assert`). -/
def VSsTableIterator.update_kv (entry : Entry) (vssts : List (Nat × SsTable)) :
    Except GetErr Bytes :=
  if entry.value_separate then do
    let vsst_id ← match readValueU32le entry.value with
      | none => Except.error GetErr.panicked
      | some n => Except.ok n
    match lookupAssoc vssts vsst_id with
    | none => .error (.missingVSst vsst_id)
    | some vsst =>
      match vsst.seekEntry entry.key with
      | some e2 => .ok e2.value
      | none => .ok []
  else .ok entry.value

/-- Positioned `VSsTableIterator` as seen by `Db::get`: validity, current
key, and the resolved value. -/
structure VIterSnap where
  valid : Bool
  key : Bytes
  value : Bytes
deriving DecidableEq, Repr

/-- `VSsTableIterator::create_and_seek_to_key` (src/sstable/iterator.rs
lines 149-163): seek the underlying SST iterator, then run `update_kv`;
at an invalid position the current entry is `EntryBuilder::empty`, whose
`value_separate()` is `true` under the source's accessor, so `update_kv`
panics reading a `u32` from the empty value. -/
def VSsTableIterator.create_and_seek_to_key (t : SsTable) (key : Bytes)
    (vssts : List (Nat × SsTable)) : Except GetErr VIterSnap := do
  let pos := t.seekEntry key
  let e := pos.getD EntryBuilder.empty
  let v ← VSsTableIterator.update_kv e vssts
  .ok ⟨pos.isSome, e.key, v⟩

/-- Modelled from the spec: head of `MergeIterator` (the source file
src/iterator/merge_iterator.rs is not under src/); the heap is ordered
by (current key ascending, source priority ascending), so the head is
the valid iterator with the least key, earlier sources winning ties. -/
def mergeHead : List VIterSnap → Option (Bytes × Bytes)
  | [] => none
  | s :: rest =>
    let r := mergeHead rest
    if s.valid then
      match r with
      | none => some (s.key, s.value)
      | some (k, v) =>
        if bytesCmp s.key k = .gt then some (k, v) else some (s.key, s.value)
    else r

/-- One level of `Db::get` (src/db.rs lines 385-401): iterators for the
tables, newest first, whose bloom filter admits the key; merge; if the
merged head's key equals the probe, its value is returned. -/
def Db.get_level (tables : List SsTable) (key : Bytes)
    (vssts : List (Nat × SsTable)) : Except GetErr (Option Bytes) := do
  let snaps ← ((tables.reverse).filter (fun t => t.maybe_contains_key key)).mapM
    (fun t => VSsTableIterator.create_and_seek_to_key t key vssts)
  match mergeHead snaps with
  | some (k, v) => if k == key then .ok (some v) else .ok none
  | none => .ok none

/-- The level loop of `Db::get`: levels probed in order, first hit wins. -/
def Db.get_levels (levels : List (List SsTable)) (key : Bytes)
    (vssts : List (Nat × SsTable)) : Except GetErr (Option Bytes) :=
  match levels with
  | [] => .ok none
  | lvl :: rest => do
    match ← Db.get_level lvl key vssts with
    | some v => .ok (some v)
    | none => Db.get_levels rest key vssts

/-- The shared state `DbInner` (src/db.rs lines 43-56) restricted to the
fields the read and write paths consult. -/
structure DbInner where
  memtable : MemTable
  frozen_memtable : List MemTable
  levels : List (List SsTable)
  vssts : List (Nat × SsTable)
  seq_num : Nat
deriving DecidableEq, Repr

/-- `Db::get` (src/db.rs lines 364-404): probe the memtable, then frozen
memtables newest first, then every level; an entry found in the memtable
path is returned as-is, and a memtable `none` — whether the key is
absent or tombstoned — falls through to the older tables. -/
def Db.get (s : DbInner) (key : Bytes) : Except GetErr (Option Bytes) :=
  let internal_key : Key := ⟨key, s.seq_num, .get⟩
  match MemTable.get s.memtable internal_key with
  | some (_, v) => .ok (some v)
  | none =>
    match s.frozen_memtable.reverse.findSome?
        (fun mt => MemTable.get mt internal_key) with
    | some (_, v) => .ok (some v)
    | none => Db.get_levels s.levels key s.vssts

/-- `Db::append` (src/db.rs lines 407-434): build the entry (Delete gets
an empty value), read `seq_num` under the lock — the source never
increments it — write the WAL (file I/O, not modelled) and insert into
the memtable under the internal key `(key, seq_num, op_type)`. -/
def Db.append (s : DbInner) (key : Bytes) (value : Option Bytes) : DbInner :=
  let p := match value with
    | none => (([] : Bytes), OpType.delete)
    | some v => (v, OpType.put)
  let internal_key : Key := ⟨key, s.seq_num, p.2⟩
  { s with memtable := MemTable.put s.memtable internal_key p.1 }

/-- `Db::put`. -/
def Db.put (s : DbInner) (key value : Bytes) : DbInner :=
  Db.append s key (some value)

/-- `Db::delete`. -/
def Db.delete (s : DbInner) (key : Bytes) : DbInner :=
  Db.append s key none

/-- The freeze step of `DbDaemon::rotate` (src/daemon/rotate.rs lines
34-61): the active memtable is replaced by a fresh one and pushed onto
`frozen_memtable` (journal rotation is file I/O, not modelled).  The
source performs it once the memtable outgrows `MEMTABLE_SIZE_LIMIT`. -/
def Db.freeze (s : DbInner) : DbInner :=
  { s with memtable := [], frozen_memtable := s.frozen_memtable ++ [s.memtable] }

/-- A fresh database: empty memtable, no frozen memtables, six empty
levels, no vSSTs, `seq_num = 1` (src/db.rs line 311). -/
def dbEmpty : DbInner := ⟨[], [], [[], [], [], [], [], []], [], 1⟩

/-- C1: last-writer-wins fails.  `seq_num` is never incremented (every
write uses `seq_num = 1`), and with equal sequence numbers a Delete key
orders before a Put key, so after `delete k; put k v` the tombstone
still shadows the new value and `get k` returns `none` where the claim
requires the last operation's value; a put-only sequence still reads
back its last value. -/
theorem c1_delete_then_put_lost :
    Db.get (Db.put (Db.delete dbEmpty [107]) [107] [118]) [107] = .ok none ∧
    (Db.put (Db.delete dbEmpty [107]) [107] [118]).seq_num = dbEmpty.seq_num ∧
    Db.get (Db.put (Db.put dbEmpty [107] [97]) [107] [118]) [107] =
      .ok (some [118]) := by
  decide

/-- C2: a tombstone does not shadow older tables.  After `put x "1"`, a
freeze, and `delete x`, the tombstone sits in the active memtable (the
memtable-level probe correctly answers `none`), but `Db::get` cannot
distinguish "tombstoned" from "absent" and falls through to the frozen
memtable, returning the deleted value instead of `none`. -/
theorem c2_tombstone_not_shadowing_frozen :
    Db.get (Db.delete (Db.freeze (Db.put dbEmpty [120] [49])) [120]) [120] =
      .ok (some [49]) ∧
    MemTable.get
      (Db.delete (Db.freeze (Db.put dbEmpty [120] [49])) [120]).memtable
      ⟨[120], 1, .get⟩ = none := by
  decide

/-- An SST covering user keys `[97]` to `[99]`. -/
def sstA : SsTable :=
  { id := 1, metas := [⟨0, [97], [99]⟩], entries := [], fsize := 0, bloom := none }

/-- An SST covering user keys `[98]` to `[100]`, which intersects
`sstA`'s range. -/
def sstB : SsTable :=
  { id := 2, metas := [⟨0, [98], [100]⟩], entries := [], fsize := 0, bloom := none }

/-- An SST covering user keys `[120]` to `[121]`, disjoint from
`sstA`'s range. -/
def sstC : SsTable :=
  { id := 3, metas := [⟨0, [120], [121]⟩], entries := [], fsize := 0, bloom := none }

/-- C4: `is_overlap` answers the opposite of range intersection.  The
ranges of `sstA` and `sstB` intersect (`sstA.max_key ≥ sstB.min_key` and
`sstB.max_key ≥ sstA.min_key`) yet `is_overlap` returns `false`, while
for the disjoint `sstA`/`sstC` pair it returns `true`: the source
returns `max_key < other_min_key || other_max_key < min_key` without the
negation its name, call sites and the spec require. -/
theorem c4_is_overlap_inverted :
    SsTable.is_overlap sstA sstB = false ∧
    bytesCmp [99] [98] ≠ .lt ∧ bytesCmp [100] [97] ≠ .lt ∧
    SsTable.is_overlap sstA sstC = true ∧
    bytesCmp [99] [120] = .lt := by
  decide

/-- Size constants from src/db_config.rs. -/
def KB : Nat := 1024

/-- `MB` (src/db_config.rs). -/
def MB : Nat := 1024 * KB

/-- `GB` (src/db_config.rs). -/
def GB : Nat := 1024 * MB

/-- `MIN_VSST_SIZE` (src/db_config.rs): 4 KiB. -/
def MIN_VSST_SIZE : Nat := 4 * KB

/-- `SST_LEVEL_LIMIT` (src/db_config.rs line 9): 6. -/
def SST_LEVEL_LIMIT : Nat := 6

/-- `MAX_SST_SIZE` (src/db_config.rs): 4 MiB. -/
def MAX_SST_SIZE : Nat := 4 * MB

/-- `MAX_LEVEL_SIZE` (src/db_config.rs lines 12-19). -/
def MAX_LEVEL_SIZE : List Nat :=
  [4 * MB, 10 * MB, 100 * MB, 1 * GB, 10 * GB, 100 * GB]

/-- Failures of the compaction path; each constructor models a Rust
panic site: vector indexing out of bounds, `Option::unwrap` on `None`,
or a byte read past a buffer's end. -/
inductive CompErr where
  | indexOutOfBounds
  | unwrapNone
  | shortBuffer
  | fuelOut
deriving DecidableEq, Repr

/-- `Vec` indexing: the element, or the out-of-bounds panic. -/
def idxE {α : Type} (l : List α) (i : Nat) : Except CompErr α :=
  match l.get? i with
  | some x => .ok x
  | none => .error .indexOutOfBounds

/-- `key_range()` with the source's `unwrap` panic made explicit. -/
def keyRangeE (t : SsTable) : Except CompErr (Bytes × Bytes) :=
  match t.key_range with
  | some r => .ok r
  | none => .error .unwrapNone

/-- `HashSet<u32>::insert` on a list model. -/
def insertId (ids : List Nat) (i : Nat) : List Nat :=
  if ids.contains i then ids else ids ++ [i]

/-- `HashMap::insert` on an association-list model (replaces). -/
def mapInsert {α : Type} (m : List (Nat × α)) (k : Nat) (v : α) : List (Nat × α) :=
  match m with
  | [] => [(k, v)]
  | p :: rest => if p.1 == k then (k, v) :: rest else p :: mapInsert rest k v

/-- `HashMap::remove` on an association-list model. -/
def removeAssoc {α : Type} (m : List (Nat × α)) (k : Nat) : List (Nat × α) :=
  m.filter (fun p => p.1 != k)

/-- First loop of `select_overlap_sst` (src/daemon/compaction.rs lines
155-170): add every other SST at the level that `base.is_overlap`
accepts, widening `[min,max]` with its range. -/
def DbDaemon.selectLi (base : SsTable) :
    List SsTable → Bytes → Bytes → List Nat →
    Except CompErr (Bytes × Bytes × List Nat)
  | [], mn, mx, ids => .ok (mn, mx, ids)
  | sst :: rest, mn, mx, ids =>
    if sst.id == base.id then DbDaemon.selectLi base rest mn mx ids
    else if base.is_overlap sst then do
      let (smn, smx) ← keyRangeE sst
      let mn' := if bytesCmp smn mn == Ordering.lt then smn else mn
      let mx' := if bytesCmp smx mx == Ordering.gt then smx else mx
      DbDaemon.selectLi base rest mn' mx' (insertId ids sst.id)
    else DbDaemon.selectLi base rest mn mx ids

/-- Second loop of `select_overlap_sst` (src/daemon/compaction.rs lines
171-182): add every SST at the next level whose range intersects
`[min,max]`; note the source widens with `else if`, so only one bound
moves per table. -/
def DbDaemon.selectLi1 :
    List SsTable → Bytes → Bytes → List Nat →
    Except CompErr (Bytes × Bytes × List Nat)
  | [], mn, mx, ids => .ok (mn, mx, ids)
  | sst :: rest, mn, mx, ids => do
    let (smn, smx) ← keyRangeE sst
    if (bytesCmp mn smx != Ordering.gt) && (bytesCmp smn mx != Ordering.gt) then
      let p := if bytesCmp smn mn == Ordering.lt then (smn, mx)
        else if bytesCmp smx mx == Ordering.gt then (mn, smx) else (mn, mx)
      DbDaemon.selectLi1 rest p.1 p.2 (insertId ids sst.id)
    else DbDaemon.selectLi1 rest mn mx ids

/-- Third loop of `select_overlap_sst` (src/daemon/compaction.rs lines
183-194): re-scan the level for newly overlapping, not yet selected
SSTs, widening once more. -/
def DbDaemon.selectLiAgain :
    List SsTable → Bytes → Bytes → List Nat →
    Except CompErr (Bytes × Bytes × List Nat)
  | [], mn, mx, ids => .ok (mn, mx, ids)
  | sst :: rest, mn, mx, ids => do
    let (smn, smx) ← keyRangeE sst
    if (bytesCmp mn smx != Ordering.gt) && (bytesCmp smn mx != Ordering.gt)
        && !(ids.contains sst.id) then
      let p := if bytesCmp smn mn == Ordering.lt then (smn, mx)
        else if bytesCmp smx mx == Ordering.gt then (mn, smx) else (mn, mx)
      DbDaemon.selectLiAgain rest p.1 p.2 (insertId ids sst.id)
    else DbDaemon.selectLiAgain rest mn mx ids

/-- `DbDaemon::select_overlap_sst` (src/daemon/compaction.rs lines
145-209): run the three selection loops over `levels[level]` and
`levels[level+1]` and collect the selected tables in level order. -/
def DbDaemon.select_overlap_sst (levels : List (List SsTable)) (level : Nat)
    (base_sst : SsTable) : Except CompErr (List SsTable × List SsTable) := do
  let (mn, mx) ← keyRangeE base_sst
  let lvlL ← idxE levels level
  let lvlL1 ← idxE levels (level + 1)
  let (mn1, mx1, liIds0) ← DbDaemon.selectLi base_sst lvlL mn mx [base_sst.id]
  let (mn2, mx2, li1Ids) ← DbDaemon.selectLi1 lvlL1 mn1 mx1 []
  let r ← DbDaemon.selectLiAgain lvlL mn2 mx2 liIds0
  let li_sst := lvlL.filter (fun s => r.2.2.contains s.id)
  let li1_sst := lvlL1.filter (fun s => li1Ids.contains s.id)
  .ok (li_sst, li1_sst)

/-- `DbDaemon::pick_base_sst` (src/daemon/compaction.rs lines 136-142):
the first SST of the level, if any. -/
def DbDaemon.pick_base_sst (levels : List (List SsTable)) (level : Nat) :
    Except CompErr (Option SsTable) := do
  let lvl ← idxE levels level
  .ok lvl.head?

/-- Modelled from the spec: `Entry::is_separate` (called by
src/iterator/rc_merge_iterator.rs line 55 but absent from src/entry.rs)
tests the `kv_separate` flag, which the spec places in bit 8 of `meta`. -/
def entryMetaIsSeparate (meta : Nat) : Bool :=
  (meta >>> 8) % 2 == 1

/-- Head selection of the k-way merge, modelled from the spec (the file
src/iterator/merge_iterator.rs is not under src/): the binary heap is
ordered by (current key ascending, source priority ascending), so the
minimum is the first nonempty source holding the least head key. -/
def pickMinIdx : List (List Entry) → Option (Nat × Entry)
  | [] => none
  | [] :: rest => (pickMinIdx rest).map (fun p => (p.1 + 1, p.2))
  | (e :: _) :: rest =>
    match pickMinIdx rest with
    | none => some (0, e)
    | some (i, e2) =>
      if bytesCmp e2.key e.key == Ordering.lt then some (i + 1, e2)
      else some (0, e)

/-- One `vsst_rc_delta` update:
`delta.insert(id, delta.get(&id).unwrap_or(&0) + x)`. -/
def deltaAdd (d : List (Nat × Int)) (k : Nat) (x : Int) : List (Nat × Int) :=
  mapInsert d k (((lookupAssoc d k).getD 0) + x)

/-- The `RcMergeIterator` stream (src/iterator/rc_merge_iterator.rs
lines 45-92 over the spec-modelled heap): each step yields the head of
the highest-priority least-key source, advances that source, and drops
the equal-key run from the head of every other source, decrementing the
referenced vSST's delta for every dropped entry whose meta carries the
`kv_separate` bit.  `fuel` bounds the recursion; the caller passes the
total entry count, which a step never exhausts since each step consumes
at least one entry. -/
def rcMergeRun : Nat → List (List Entry) → List (Nat × Int) →
    Except CompErr (List Entry × List (Nat × Int))
  | 0, iters, delta =>
    if iters.all List.isEmpty then .ok ([], delta) else .error .fuelOut
  | fuel + 1, iters, delta =>
    match pickMinIdx iters with
    | none => .ok ([], delta)
    | some (i, cur) => do
      let dropped := (iters.enum.filter (fun p => p.1 != i)).flatMap
        (fun p => p.2.takeWhile (fun e => e.key == cur.key))
      let delta' ← dropped.foldlM (fun d e =>
        if entryMetaIsSeparate e.meta then
          match readValueU32le e.value with
          | none => .error CompErr.shortBuffer
          | some vid => .ok (deltaAdd d vid (-1))
        else .ok d) delta
      let iters' := iters.enum.map (fun p =>
        if p.1 == i then p.2.tail
        else p.2.dropWhile (fun e => e.key == cur.key))
      let r ← rcMergeRun fuel iters' delta'
      .ok (cur :: r.1, r.2)

/-- Entry point of the rc-aware merge over the sources' entry streams. -/
def RcMergeIterator.run (iters : List (List Entry)) :
    Except CompErr (List Entry × List (Nat × Int)) :=
  rcMergeRun ((iters.map List.length).sum) iters []

/-- Modelled from the spec: `SsTableBuilder::size` (called by
src/daemon/compaction.rs and src/daemon/rotate.rs but absent from
src/sstable/builder.rs) — the bytes accumulated so far, here the sum of
the entry sizes. -/
def builderSize (es : List Entry) : Nat :=
  (es.map Entry.size).sum

/-- Modelled from the spec: `SsTable::num_of_pairs` (called by
src/daemon/compaction.rs line 252 but absent from
src/sstable/builder.rs) — the total number of key/value pairs stored. -/
def SsTable.num_of_pairs (t : SsTable) : Nat :=
  t.entries.length

/-- `SsTableBuilder::build` reduced to the fields this model tracks: the
entry stream in order, a single meta block spanning the first and last
keys (range-equivalent to the source's per-block metas), the
accumulated size, and a bloom filter over all keys. -/
def SsTableBuilder.buildModel (id : Nat) (es : List Entry) : SsTable :=
  { id := id
    metas := match es with
      | [] => []
      | e :: rest => [⟨0, e.key, (rest.getLastD e).key⟩]
    entries := es
    fsize := builderSize es
    bloom := some (es.map (·.key)) }

/-- `DbDaemon::merge` (src/daemon/compaction.rs lines 211-335), file
I/O dropped: run the rc-aware merge, then stream the surviving entries
into output SSTs.  An entry counts as separated when its value exceeds
`MIN_VSST_SIZE`; for such entries, when the referenced vSST's live
refcount exceeds half its total pairs (`MAX_VSST_SPARE_RATIO` is absent
from src/db_config.rs; modelled from the spec's default 0.5, the `f32`
division compared exactly), the value is rewritten into a new vSST.
Every surviving entry is re-built with op type Put.  When the current
output SST would exceed `MAX_SST_SIZE` the builder is rolled: the
source builds that file but never collects it into `new_ssts`, and only
the final builder's SST is returned; this model reproduces that. -/
def DbDaemon.merge (now_sst_id : Nat) (ssts : List SsTable) (now_vsst_id : Nat)
    (vssts : List (Nat × SsTable)) (vsst_rc : List (Nat × Nat)) :
    Except CompErr (List SsTable × List SsTable × List (Nat × Int)) := do
  let mr ← RcMergeIterator.run (ssts.map (·.entries))
  let st ← mr.1.foldlM (fun st e => do
    let (builder, new_ssts, vb, d, nsid, nvid) :
        List Entry × List SsTable × List Entry × List (Nat × Int) × Nat × Nat := st
    let is_separate := decide (e.value.length > MIN_VSST_SIZE)
    let probe ← if is_separate then
        match readValueU32le e.value with
        | none => Except.error CompErr.shortBuffer
        | some vid =>
          match lookupAssoc vsst_rc vid with
          | some rc => do
            let vsst ← match lookupAssoc vssts vid with
              | none => Except.error CompErr.unwrapNone
              | some v => Except.ok v
            Except.ok (decide (2 * rc > vsst.num_of_pairs), vid)
          | none => Except.ok (false, vid)
      else Except.ok (false, 0)
    let r ← if probe.1 then do
        let vsst ← match lookupAssoc vssts probe.2 with
          | none => Except.error CompErr.unwrapNone
          | some v => Except.ok v
        let value := match vsst.seekEntry e.key with
          | some e2 => e2.value
          | none => []
        let d1 := deltaAdd (deltaAdd d probe.2 (-1)) nvid 1
        let vb1 := vb ++ [((EntryBuilder.new.key_value e.key value).build)]
        let entry := ((((EntryBuilder.new.op_type .put).kv_separate true).key_value
          e.key (u32le nvid)).build)
        Except.ok (entry, vb1, d1)
      else
        Except.ok (((((EntryBuilder.new.op_type .put).kv_separate is_separate).key_value
          e.key e.value).build), vb, d)
    let roll := decide (builderSize builder + r.1.size > MAX_SST_SIZE)
    let builder' := if roll then [] else builder
    let nsid' := if roll then nsid + 1 else nsid
    .ok (builder' ++ [r.1], new_ssts, r.2.1, r.2.2, nsid', nvid))
    (([] : List Entry), ([] : List SsTable), ([] : List Entry),
      ([] : List (Nat × Int)), now_sst_id + 1, now_vsst_id + 1)
  let (builder, new_ssts, vb, d, nsid, nvid) := st
  let new_ssts := if builderSize builder > 0 then
      new_ssts ++ [SsTableBuilder.buildModel nsid builder] else new_ssts
  let new_vssts := if builderSize vb > 0 then
      [SsTableBuilder.buildModel nvid vb] else ([] : List SsTable)
  let dAll := mr.2.foldl (fun acc p => deltaAdd acc p.1 p.2) d
  .ok (new_ssts, new_vssts, dAll)

/-- Compaction-side view of `DbInner`: the fields
`DbDaemon::compaction` consults. -/
structure CompState where
  levels : List (List SsTable)
  vssts : List (Nat × SsTable)
  vsst_rc : List (Nat × Nat)
  sst_id : Nat
  vsst_id : Nat
deriving DecidableEq, Repr

/-- `DbDaemon::compaction` (src/daemon/compaction.rs lines 27-134),
manifest writes and file deletion dropped: skip when
`level == SST_LEVEL_LIMIT` (the source compares against 6, not 5); pick
a base SST, select overlapping SSTs (the source passes the literal
level 0 to `select_overlap_sst`), merge, then retire the inputs from
`levels[level]` and `levels[level + 1]` and install the outputs at
`levels[level + 1]`; apply the refcount deltas, dropping any vSST whose
count reaches zero; finally request a follow-up compaction when the
next level outgrew `MAX_LEVEL_SIZE[level + 1]`. -/
def DbDaemon.compaction (level : Nat) (s : CompState) :
    Except CompErr (CompState × Option Nat) :=
  if level == SST_LEVEL_LIMIT then .ok (s, none)
  else do
    let base? ← DbDaemon.pick_base_sst s.levels level
    match base? with
    | none => .ok (s, none)
    | some base_sst => do
      let sel ← DbDaemon.select_overlap_sst s.levels 0 base_sst
      let ssts := sel.1 ++ sel.2
      let sst_ids := ssts.map (·.id)
      let m ← DbDaemon.merge s.sst_id ssts s.vsst_id s.vssts s.vsst_rc
      let (new_ssts, new_vssts, delta) := m
      let lvlL ← idxE s.levels level
      let lvlL1 ← idxE s.levels (level + 1)
      let lvlL' := lvlL.filter (fun t => !(sst_ids.contains t.id))
      let lvlL1' := lvlL1.filter (fun t => !(sst_ids.contains t.id)) ++ new_ssts
      let vssts0 := new_vssts.foldl (fun mp v => mapInsert mp v.id v) s.vssts
      let rcState ← delta.foldlM (fun (p : List (Nat × SsTable) × List (Nat × Nat)) dv => do
          let old : Int := Int.ofNat ((lookupAssoc p.2 dv.1).getD 0)
          let new_rc := old + dv.2
          if new_rc ≤ 0 then
            .ok (removeAssoc p.1 dv.1, removeAssoc p.2 dv.1)
          else
            .ok (p.1, mapInsert p.2 dv.1 new_rc.toNat))
        (vssts0, s.vsst_rc)
      let levels' := (s.levels.set level lvlL').set (level + 1) lvlL1'
      let leveli1_size := (lvlL1'.map (·.fsize)).sum
      let maxSize ← idxE MAX_LEVEL_SIZE (level + 1)
      let msg := if leveli1_size > maxSize then some (level + 1) else none
      .ok ({ s with levels := levels', vssts := rcState.1, vsst_rc := rcState.2 }, msg)

/-- A last-level SST holding one small entry. -/
def c8Sst : SsTable :=
  { id := 7, metas := [⟨0, [97], [98]⟩], entries := [⟨1, [97], [118]⟩],
    fsize := 30, bloom := some [[97]] }

/-- Levels with a single SST sitting at the last level (index 5). -/
def c8State : CompState :=
  ⟨[[], [], [], [], [], [c8Sst]], [], [], 7, 0⟩

/-- C8: the top-level guard is off by one.  The source skips only when
`level == SST_LEVEL_LIMIT` (6), a value the workers never send, so a
compaction at the last level `SST_LEVEL_LIMIT - 1 = 5` is not skipped
and indexes `levels[6]` in a vector of length 6 — an out-of-bounds
panic — instead of returning immediately with the state unchanged. -/
theorem c8_compaction_level5_out_of_bounds :
    DbDaemon.compaction (SST_LEVEL_LIMIT - 1) c8State = .error .indexOutOfBounds ∧
    DbDaemon.compaction (SST_LEVEL_LIMIT - 1) c8State ≠ .ok (c8State, none) ∧
    DbDaemon.compaction 6 c8State = .ok (c8State, none) := by
  decide

/-- Bitwise xor of the low `f` bits, computed arithmetically. -/
def xorBits : Nat → Nat → Nat → Nat
  | 0, _, _ => 0
  | f + 1, a, b => (a + b) % 2 + 2 * xorBits f (a / 2) (b / 2)

/-- `u32` xor. -/
def xor32 (a b : Nat) : Nat := xorBits 32 a b

/-- One bit-round of the reflected CRC-32 with polynomial 0xEDB88320. -/
def crc32Round (c : Nat) : Nat :=
  if c % 2 = 1 then xor32 (c / 2) 0xEDB88320 else c / 2

/-- Iterated CRC-32 rounds. -/
def crc32Rounds : Nat → Nat → Nat
  | 0, c => c
  | n + 1, c => crc32Rounds n (crc32Round c)

/-- Fold one byte into the CRC-32 state. -/
def crc32Byte (c b : Nat) : Nat := crc32Rounds 8 (xor32 c b)

/-- Model of `crc::crc32::checksum_ieee` (external `crc` crate): the
standard reflected IEEE CRC-32. -/
def checksum_ieee (data : Bytes) : Nat :=
  xor32 (data.foldl crc32Byte 0xFFFFFFFF) 0xFFFFFFFF

/-- Decode failures.  `panicked` models the `bytes` crate's panic when a
read advances past the end of the buffer; `checksumMismatch` and
`unsupportedType` are the source's error returns; `fuelOut` is the
unreachable guard of the bounded open loop. -/
inductive DecErr where
  | panicked
  | checksumMismatch (expect got : Nat)
  | unsupportedType (t : Nat)
  | fuelOut
deriving DecidableEq, Repr

/-- `Buf::get_u8`. -/
def readU8 : Bytes → Except DecErr (Nat × Bytes)
  | [] => .error .panicked
  | b :: rest => .ok (b, rest)

/-- `Buf::get_u32_le`. -/
def readU32 : Bytes → Except DecErr (Nat × Bytes)
  | b0 :: b1 :: b2 :: b3 :: rest =>
    .ok (b0 + 256 * b1 + 65536 * b2 + 16777216 * b3, rest)
  | _ => .error .panicked

/-- `Buf::get_u64_le`. -/
def readU64 : Bytes → Except DecErr (Nat × Bytes)
  | b0 :: b1 :: b2 :: b3 :: b4 :: b5 :: b6 :: b7 :: rest =>
    .ok (b0 + 256 * b1 + 65536 * b2 + 16777216 * b3 + 4294967296 * b4 +
      1099511627776 * b5 + 281474976710656 * b6 + 72057594037927936 * b7, rest)
  | _ => .error .panicked

/-- `ManifestItem` (src/meta/manifest.rs lines 63-79); the `i32` version
of `Init` is modelled by its 32-bit two's-complement pattern as a Nat. -/
inductive ManifestItem where
  | Init (version : Nat)
  | NewSst (level sst_id : Nat)
  | DelSst (level sst_id : Nat)
  | NewVSst (vsst_id : Nat)
  | DelVSst (vsst_id : Nat)
  | MaxSeqNum (seq : Nat)
  | RotateWal
deriving DecidableEq, Repr

/-- `ManifestItem::type_encode` (src/meta/manifest.rs lines 88-98). -/
def ManifestItem.type_encode : ManifestItem → Nat
  | .Init _ => 0
  | .NewSst _ _ => 1
  | .DelSst _ _ => 2
  | .NewVSst _ => 3
  | .DelVSst _ => 4
  | .MaxSeqNum _ => 5
  | .RotateWal => 6

/-- `ManifestItem::content_size` (src/meta/manifest.rs lines 123-133). -/
def ManifestItem.content_size : ManifestItem → Nat
  | .Init _ => 4
  | .NewSst _ _ => 8
  | .DelSst _ _ => 8
  | .NewVSst _ => 4
  | .DelVSst _ => 4
  | .MaxSeqNum _ => 8
  | .RotateWal => 0

/-- `ManifestItem::put_content` (src/meta/manifest.rs lines 100-120). -/
def ManifestItem.put_content : ManifestItem → Bytes
  | .Init v => u32le v
  | .NewSst level sst_id => u32le level ++ u32le sst_id
  | .DelSst level sst_id => u32le level ++ u32le sst_id
  | .NewVSst vsst_id => u32le vsst_id
  | .DelVSst vsst_id => u32le vsst_id
  | .MaxSeqNum seq => u64le seq
  | .RotateWal => []

/-- `RecordItem::size` for `ManifestItem`: a 5-byte header plus the
content. -/
def ManifestItem.size (i : ManifestItem) : Nat := 5 + i.content_size

/-- `RecordItem::encode` for `ManifestItem` (src/meta/manifest.rs lines
137-143): type byte, content length as `u32` LE, content. -/
def ManifestItem.encode (i : ManifestItem) : Bytes :=
  i.type_encode :: u32le i.content_size ++ i.put_content

/-- `RecordItem::decode_with_bytes` for `ManifestItem`
(src/meta/manifest.rs lines 145-178). -/
def ManifestItem.decode_with_bytes (buf : Bytes) :
    Except DecErr (ManifestItem × Bytes) :=
  match readU8 buf with
  | .error e => .error e
  | .ok (item_type, buf) =>
    match readU32 buf with
    | .error e => .error e
    | .ok (_data_len, buf) =>
      match item_type with
      | 0 => (readU32 buf).map (fun p => (.Init p.1, p.2))
      | 1 => match readU32 buf with
        | .error e => .error e
        | .ok (level, buf) => (readU32 buf).map (fun p => (.NewSst level p.1, p.2))
      | 2 => match readU32 buf with
        | .error e => .error e
        | .ok (level, buf) => (readU32 buf).map (fun p => (.DelSst level p.1, p.2))
      | 3 => (readU32 buf).map (fun p => (.NewVSst p.1, p.2))
      | 4 => (readU32 buf).map (fun p => (.DelVSst p.1, p.2))
      | 5 => (readU64 buf).map (fun p => (.MaxSeqNum p.1, p.2))
      | 6 => .ok (.RotateWal, buf)
      | t => .error (.unsupportedType t)

/-- A `Record` of manifest items (src/record.rs, instantiated at
`ManifestItem` as the manifest does). -/
structure Record where
  items : List ManifestItem
deriving DecidableEq, Repr

/-- `Record::encode` (src/record.rs lines 21-36): CRC-32 over the item
count and encoded items, stored little-endian in the leading 4 bytes. -/
def Record.encode (r : Record) : Bytes :=
  let body := u64le r.items.length ++ (r.items.map ManifestItem.encode).flatten
  u32le (checksum_ieee body) ++ body

/-- Decoding of `item_num` successive items. -/
def decodeItems : Nat → Bytes → Except DecErr (List ManifestItem × Bytes)
  | 0, buf => .ok ([], buf)
  | n + 1, buf =>
    match ManifestItem.decode_with_bytes buf with
    | .error e => .error e
    | .ok (i, buf) =>
      match decodeItems n buf with
      | .error e => .error e
      | .ok (is_, rest) => .ok (i :: is_, rest)

/-- `Record::decode_with_bytes` (src/record.rs lines 38-62): read the
stored checksum and item count, decode the items, recompute the CRC-32
over the count-and-items region of the original buffer, and fail with
a checksum mismatch when it differs from the stored value. -/
def Record.decode_with_bytes (buf : Bytes) : Except DecErr (Record × Bytes) :=
  match readU32 buf with
  | .error e => .error e
  | .ok (expect_checksum, buf1) =>
    match readU64 buf1 with
    | .error e => .error e
    | .ok (item_num, buf2) =>
      match decodeItems item_num buf2 with
      | .error e => .error e
      | .ok (items, rest) =>
        let data_len := (items.map ManifestItem.size).sum
        let checksum := checksum_ieee ((buf.drop 4).take (8 + data_len))
        if expect_checksum = checksum then .ok (⟨items⟩, rest)
        else .error (.checksumMismatch expect_checksum checksum)

/-- The decode loop of `Manifest::open` (src/meta/manifest.rs lines
21-31): records are decoded from the front until the buffer is empty,
any failure aborting the whole open.  The structural fuel equals the
buffer length, which a decode step cannot exhaust. -/
def openRecordsAux : Nat → Bytes → Except DecErr (List Record)
  | 0, buf => if buf.isEmpty then .ok [] else .error .fuelOut
  | fuel + 1, buf =>
    if buf.isEmpty then .ok []
    else
      match Record.decode_with_bytes buf with
      | .error e => .error e
      | .ok (r, rest) =>
        match openRecordsAux fuel rest with
        | .error e => .error e
        | .ok rs => .ok (r :: rs)

/-- `Manifest::open` restricted to its decode loop (the file handle is
I/O). -/
def Manifest.open_records (buf : Bytes) : Except DecErr (List Record) :=
  openRecordsAux buf.length buf

/-- Well-formed items: every field fits its machine-integer width. -/
def ManifestItem.wf : ManifestItem → Bool
  | .Init v => decide (v < 4294967296)
  | .NewSst l s => decide (l < 4294967296) && decide (s < 4294967296)
  | .DelSst l s => decide (l < 4294967296) && decide (s < 4294967296)
  | .NewVSst v => decide (v < 4294967296)
  | .DelVSst v => decide (v < 4294967296)
  | .MaxSeqNum s => decide (s < 18446744073709551616)
  | .RotateWal => true

/-- Well-formed records: well-formed items, and an item count fitting a
`u64`. -/
def Record.wf (r : Record) : Bool :=
  r.items.all ManifestItem.wf && decide (r.items.length < 18446744073709551616)

lemma xorBits_lt : ∀ (f a b : Nat), xorBits f a b < 2 ^ f := by
  intro f
  induction f with
  | zero => intro a b; simp [xorBits]
  | succ f ih =>
    intro a b
    have h := ih (a / 2) (b / 2)
    have h2 : (a + b) % 2 < 2 := Nat.mod_lt _ (by omega)
    simp only [xorBits, Nat.pow_succ]
    omega

lemma checksum_ieee_lt (d : Bytes) : checksum_ieee d < 4294967296 := by
  have := xorBits_lt 32 (d.foldl crc32Byte 0xFFFFFFFF) 0xFFFFFFFF
  simpa [checksum_ieee, xor32] using this

lemma readU32_u32le {n : Nat} (h : n < 4294967296) (rest : Bytes) :
    readU32 (u32le n ++ rest) = .ok (n, rest) := by
  simp only [u32le, List.cons_append, List.nil_append, readU32]
  congr 2
  omega

lemma readU64_u64le {n : Nat} (h : n < 18446744073709551616) (rest : Bytes) :
    readU64 (u64le n ++ rest) = .ok (n, rest) := by
  simp only [u64le, List.cons_append, List.nil_append, readU64]
  congr 2
  omega

lemma manifestItem_encode_length (i : ManifestItem) :
    (ManifestItem.encode i).length = i.size := by
  cases i <;>
    simp [ManifestItem.encode, ManifestItem.size, ManifestItem.content_size,
      ManifestItem.put_content, u32le, u64le]

lemma manifestItem_decode_encode (i : ManifestItem) (h : i.wf = true) (rest : Bytes) :
    ManifestItem.decode_with_bytes (ManifestItem.encode i ++ rest) = .ok (i, rest) := by
  cases i with
  | Init v =>
    simp only [ManifestItem.wf, decide_eq_true_eq] at h
    simp [ManifestItem.encode, ManifestItem.type_encode, ManifestItem.put_content,
      ManifestItem.content_size, ManifestItem.decode_with_bytes, readU8, Except.map,
      readU32_u32le (by omega : (4:Nat) < 4294967296), readU32_u32le h]
  | NewSst l s =>
    simp only [ManifestItem.wf, Bool.and_eq_true, decide_eq_true_eq] at h
    simp [ManifestItem.encode, ManifestItem.type_encode, ManifestItem.put_content,
      ManifestItem.content_size, ManifestItem.decode_with_bytes, readU8, Except.map,
      List.append_assoc, readU32_u32le (by omega : (8:Nat) < 4294967296),
      readU32_u32le h.1, readU32_u32le h.2]
  | DelSst l s =>
    simp only [ManifestItem.wf, Bool.and_eq_true, decide_eq_true_eq] at h
    simp [ManifestItem.encode, ManifestItem.type_encode, ManifestItem.put_content,
      ManifestItem.content_size, ManifestItem.decode_with_bytes, readU8, Except.map,
      List.append_assoc, readU32_u32le (by omega : (8:Nat) < 4294967296),
      readU32_u32le h.1, readU32_u32le h.2]
  | NewVSst v =>
    simp only [ManifestItem.wf, decide_eq_true_eq] at h
    simp [ManifestItem.encode, ManifestItem.type_encode, ManifestItem.put_content,
      ManifestItem.content_size, ManifestItem.decode_with_bytes, readU8, Except.map,
      readU32_u32le (by omega : (4:Nat) < 4294967296), readU32_u32le h]
  | DelVSst v =>
    simp only [ManifestItem.wf, decide_eq_true_eq] at h
    simp [ManifestItem.encode, ManifestItem.type_encode, ManifestItem.put_content,
      ManifestItem.content_size, ManifestItem.decode_with_bytes, readU8, Except.map,
      readU32_u32le (by omega : (4:Nat) < 4294967296), readU32_u32le h]
  | MaxSeqNum s =>
    simp only [ManifestItem.wf, decide_eq_true_eq] at h
    simp [ManifestItem.encode, ManifestItem.type_encode, ManifestItem.put_content,
      ManifestItem.content_size, ManifestItem.decode_with_bytes, readU8, Except.map,
      readU32_u32le (by omega : (8:Nat) < 4294967296), readU64_u64le h]
  | RotateWal =>
    simp [ManifestItem.encode, ManifestItem.type_encode, ManifestItem.put_content,
      ManifestItem.content_size, ManifestItem.decode_with_bytes, readU8, Except.map,
      readU32_u32le (by omega : (0:Nat) < 4294967296)]

lemma decodeItems_encode (items : List ManifestItem)
    (h : items.all ManifestItem.wf = true) (rest : Bytes) :
    decodeItems items.length ((items.map ManifestItem.encode).flatten ++ rest) =
      .ok (items, rest) := by
  induction items with
  | nil => simp [decodeItems]
  | cons i is_ ih =>
    simp only [List.all_cons, Bool.and_eq_true] at h
    simp [decodeItems, List.append_assoc, manifestItem_decode_encode i h.1, ih h.2]

lemma record_encode_flatten_length (items : List ManifestItem) :
    ((items.map ManifestItem.encode).flatten).length =
      (items.map ManifestItem.size).sum := by
  induction items with
  | nil => simp
  | cons i is_ ih => simp [ih, manifestItem_encode_length]

lemma drop4_u32le (c : Nat) (X : Bytes) : (u32le c ++ X).drop 4 = X := rfl

lemma record_decode_encode (r : Record) (h : r.wf = true) (rest : Bytes) :
    Record.decode_with_bytes (Record.encode r ++ rest) = .ok (r, rest) := by
  simp only [Record.wf, Bool.and_eq_true, decide_eq_true_eq] at h
  have hck := checksum_ieee_lt
    (u64le r.items.length ++ (r.items.map ManifestItem.encode).flatten)
  have htake : (u64le r.items.length ++
      ((r.items.map ManifestItem.encode).flatten ++ rest)).take
        (8 + (r.items.map ManifestItem.size).sum) =
      u64le r.items.length ++ (r.items.map ManifestItem.encode).flatten := by
    rw [← List.append_assoc]
    refine List.take_left' ?_
    have hf := record_encode_flatten_length r.items
    simp only [List.length_append, u64le, List.length_cons, List.length_nil]
    omega
  simp only [Record.encode, List.append_assoc, Record.decode_with_bytes,
    readU32_u32le hck, readU64_u64le h.2, decodeItems_encode r.items h.1 rest,
    drop4_u32le, htake]
  simp

lemma record_encode_ne_nil (r : Record) : Record.encode r ≠ [] := by
  simp [Record.encode, u32le]

lemma openRecordsAux_append (rs : List Record) :
    ∀ (fuel : Nat) (tail : Bytes) (e : DecErr),
    (∀ r ∈ rs, Record.wf r = true) → tail ≠ [] →
    Record.decode_with_bytes tail = .error e →
    ((rs.map Record.encode).flatten ++ tail).length ≤ fuel →
    openRecordsAux fuel ((rs.map Record.encode).flatten ++ tail) = .error e := by
  induction rs with
  | nil =>
    intro fuel tail e _ htail hdec hlen
    cases fuel with
    | zero =>
      cases tail with
      | nil => exact absurd rfl htail
      | cons b bs => simp at hlen
    | succ fuel =>
      simp only [List.map_nil, List.flatten_nil, List.nil_append]
      rw [openRecordsAux]
      simp [List.isEmpty_iff, htail, hdec]
  | cons r rs ih =>
    intro fuel tail e hwf htail hdec hlen
    have hne : Record.encode r ≠ [] := record_encode_ne_nil r
    have hlen1 : 1 ≤ (Record.encode r).length := by
      cases hh : Record.encode r with
      | nil => exact absurd hh hne
      | cons a as_ => simp
    cases fuel with
    | zero =>
      exfalso
      simp only [List.map_cons, List.flatten_cons, List.append_assoc,
        List.length_append, Nat.le_zero] at hlen
      omega
    | succ fuel =>
      have hrest := ih fuel tail e (fun x hx => hwf x (List.mem_cons_of_mem r hx))
        htail hdec (by
          simp only [List.map_cons, List.flatten_cons, List.append_assoc,
            List.length_append] at hlen ⊢
          omega)
      simp only [List.map_cons, List.flatten_cons, List.append_assoc]
      rw [openRecordsAux]
      have hbne : Record.encode r ++ ((rs.map Record.encode).flatten ++ tail) ≠ [] := by
        simp [hne]
      rw [if_neg (by simpa [List.isEmpty_iff] using hbne)]
      simp only [record_decode_encode r (hwf r (List.mem_cons_self r rs)), hrest]

/-- C3 amended: a reader that hits a corrupt or truncated record fails
the whole open — `Manifest::open` propagates the first decode error and
does not return the preceding records — and `Record::decode_with_bytes`
never returns a record whose stored checksum does not match the CRC-32
it recomputes over the record's bytes. -/
theorem c3_amended_open_error_and_checksum_sound :
    (∀ (rs : List Record) (tail : Bytes) (e : DecErr),
      (∀ r ∈ rs, Record.wf r = true) → tail ≠ [] →
      Record.decode_with_bytes tail = .error e →
      Manifest.open_records ((rs.map Record.encode).flatten ++ tail) = .error e) ∧
    (∀ (buf : Bytes) (r : Record) (rest : Bytes),
      Record.decode_with_bytes buf = .ok (r, rest) →
      readU32 buf =
        .ok (checksum_ieee ((buf.drop 4).take
          (8 + (r.items.map ManifestItem.size).sum)), buf.drop 4)) := by
  constructor
  · intro rs tail e hwf htail hdec
    exact openRecordsAux_append rs _ tail e hwf htail hdec (Nat.le_refl _)
  · intro buf r rest hok
    match buf with
    | [] => simp [Record.decode_with_bytes, readU32] at hok
    | [b0] => simp [Record.decode_with_bytes, readU32] at hok
    | [b0, b1] => simp [Record.decode_with_bytes, readU32] at hok
    | [b0, b1, b2] => simp [Record.decode_with_bytes, readU32] at hok
    | b0 :: b1 :: b2 :: b3 :: t =>
      rw [show ((b0 :: b1 :: b2 :: b3 :: t : Bytes)).drop 4 = t from rfl]
      rw [show readU32 (b0 :: b1 :: b2 :: b3 :: t) =
        .ok (b0 + 256 * b1 + 65536 * b2 + 16777216 * b3, t) from rfl]
      cases h64 : readU64 t with
      | error e => rw [Record.decode_with_bytes] at hok; simp [readU32, h64] at hok
      | ok q =>
        cases hitems : decodeItems q.1 q.2 with
        | error e =>
          rw [Record.decode_with_bytes] at hok
          simp [readU32, h64, hitems] at hok
        | ok pr =>
          by_cases hc : b0 + 256 * b1 + 65536 * b2 + 16777216 * b3 =
              checksum_ieee (t.take (8 + (pr.1.map ManifestItem.size).sum))
          · rw [Record.decode_with_bytes] at hok
            simp only [readU32, h64, hitems,
              show ((b0 :: b1 :: b2 :: b3 :: t : Bytes)).drop 4 = t from rfl,
              if_pos hc, Except.ok.injEq, Prod.mk.injEq] at hok
            obtain ⟨hr, _⟩ := hok
            rw [← hr]
            rw [show (Record.mk pr.1).items = pr.1 from rfl]
            rw [hc]
          · rw [Record.decode_with_bytes] at hok
            simp only [readU32, h64, hitems,
              show ((b0 :: b1 :: b2 :: b3 :: t : Bytes)).drop 4 = t from rfl,
              if_neg hc] at hok
            exact absurd hok (by simp)

/-- The well-formed first record of the counterexample log. -/
def c3GoodRecord : Record := ⟨[.Init 1]⟩

/-- A corrupt tail: the encoding of a `RotateWal` record with the low
byte of its stored checksum changed, so its CRC-32 check fails. -/
def c3BadTail : Bytes :=
  match Record.encode ⟨[.RotateWal]⟩ with
  | [] => []
  | c :: rest => ((c + 1) % 256) :: rest

/-- A manifest log: one good record followed by the corrupt tail. -/
def c3Log : Bytes := Record.encode c3GoodRecord ++ c3BadTail

/-- The error value with which the corrupt tail decodes. -/
def c3TailErr : DecErr :=
  match Record.decode_with_bytes c3BadTail with
  | .error e => e
  | .ok _ => .fuelOut

/-- C3 counterexample: on a log holding one well-formed record followed
by a checksum-corrupt record, `Manifest::open` does not return exactly
the records preceding the corrupt one — the `?` on each record decode
fails the whole open with the tail's checksum error. -/
theorem c3_manifest_open_fails_on_corrupt_tail :
    Manifest.open_records c3Log ≠ .ok [c3GoodRecord] ∧
    Manifest.open_records c3Log = .error c3TailErr := by
  constructor
  · decide
  · decide

/-- Witness for C3's amended theorem at the concrete corrupt log, and
for its checksum-soundness part at the good record's encoding. -/
theorem c3_amended_witness :
    Manifest.open_records (([c3GoodRecord].map Record.encode).flatten ++ c3BadTail) =
      .error c3TailErr ∧
    readU32 (Record.encode c3GoodRecord) =
      .ok (checksum_ieee (((Record.encode c3GoodRecord).drop 4).take
        (8 + (c3GoodRecord.items.map ManifestItem.size).sum)),
        (Record.encode c3GoodRecord).drop 4) := by
  constructor
  · exact c3_amended_open_error_and_checksum_sound.1 [c3GoodRecord] c3BadTail c3TailErr
      (by decide) (by decide) (by decide)
  · exact c3_amended_open_error_and_checksum_sound.2 (Record.encode c3GoodRecord)
      c3GoodRecord [] (by decide)

/-- Range bounds (`std::ops::Bound`). -/
inductive RBound (α : Type) where
  | included (a : α)
  | excluded (a : α)
  | unbounded
deriving DecidableEq, Repr

/-- The `bytes_2_key` closure of `MemTable::scan`
(src/memtable/memtable.rs lines 53-57), exactly as written: an
`Included` and an `Excluded` byte bound are both mapped to the
`Included` internal key `(key, 1 << (7 - 1), Get)`. -/
def bytes_2_key : RBound Bytes → RBound Key
  | .included k => .included ⟨k, 1 <<< (7 - 1), .get⟩
  | .excluded k => .included ⟨k, 1 <<< (7 - 1), .get⟩
  | .unbounded => .unbounded

/-- A key satisfies a lower range bound. -/
def lowerOkKey : RBound Key → Key → Bool
  | .included b, k => Key.cmp b k != Ordering.gt
  | .excluded b, k => Key.cmp b k == Ordering.lt
  | .unbounded, _ => true

/-- A key satisfies an upper range bound. -/
def upperOkKey : RBound Key → Key → Bool
  | .included b, k => Key.cmp k b != Ordering.gt
  | .excluded b, k => Key.cmp k b == Ordering.lt
  | .unbounded, _ => true

/-- `SkipMap::range` on the sorted-list model: the in-order entries
within the bounds. -/
def MemTable.range (mt : MemTable) (lo hi : RBound Key) : MemTable :=
  mt.filter (fun e => lowerOkKey lo e.1 && upperOkKey hi e.1)

/-- `MemTableIterator::entry_to_item` (src/memtable/iterator.rs lines
37-41): the entry's user key and value; an exhausted range yields the
empty pair. -/
def MemTableIterator.entry_to_item (e : Key × Bytes) : Bytes × Bytes :=
  (e.1.user_key, e.2)

/-- The items a `MemTableIterator` yields before reporting invalid:
`is_valid` is "current user key non-empty"
(src/memtable/iterator.rs lines 57-59), so consumers stop at the first
entry whose user key is empty, and at the exhausted-range sentinel
(empty pair) otherwise. -/
def memIterCollect : MemTable → List (Bytes × Bytes)
  | [] => []
  | e :: rest =>
    if e.1.user_key == [] then []
    else MemTableIterator.entry_to_item e :: memIterCollect rest

/-- `MemTable::scan` (src/memtable/memtable.rs lines 52-60) composed
with the iterator's consumption: map the bounds through `bytes_2_key`
and read the range. -/
def MemTable.scan (mt : MemTable) (lo hi : RBound Bytes) : List (Bytes × Bytes) :=
  memIterCollect (MemTable.range mt (bytes_2_key lo) (bytes_2_key hi))

/-- Head selection over item streams, modelled from the spec (the file
src/iterator/merge_iterator.rs is not under src/): least key first,
earlier (higher-priority) sources winning ties. -/
def pickMinItemIdx : List (List (Bytes × Bytes)) → Option (Nat × (Bytes × Bytes))
  | [] => none
  | [] :: rest => (pickMinItemIdx rest).map (fun p => (p.1 + 1, p.2))
  | (it :: _) :: rest =>
    match pickMinItemIdx rest with
    | none => some (0, it)
    | some (i, it2) =>
      if bytesCmp it2.1 it.1 == Ordering.lt then some (i + 1, it2)
      else some (0, it)

/-- The k-way `MergeIterator` stream, modelled from the spec: each step
yields the head of the highest-priority least-key source and drops the
equal-key heads of the other sources.  The fuel is the total item
count, which a step cannot exhaust. -/
def kMergeRun : Nat → List (List (Bytes × Bytes)) → List (Bytes × Bytes)
  | 0, _ => []
  | fuel + 1, iters =>
    match pickMinItemIdx iters with
    | none => []
    | some (i, cur) =>
      let iters' := iters.enum.map (fun p =>
        if p.1 == i then p.2.tail
        else p.2.dropWhile (fun it => it.1 == cur.1))
      cur :: kMergeRun fuel iters'

/-- Entry point of the k-way merge. -/
def kMerge (iters : List (List (Bytes × Bytes))) : List (Bytes × Bytes) :=
  kMergeRun ((iters.map List.length).sum) iters

/-- The `TwoMergeIterator` stream, modelled from the spec (the file
src/iterator/two_merge_iterator.rs is not under src/): an ordered merge
of two streams where on equal keys the first stream's item is yielded
and the second's dropped. -/
def twoMergeRun : Nat → List (Bytes × Bytes) → List (Bytes × Bytes) →
    List (Bytes × Bytes)
  | 0, _, _ => []
  | fuel + 1, a, b =>
    match a, b with
    | [], b => b
    | a, [] => a
    | x :: as_, y :: bs =>
      if x.1 == y.1 then x :: twoMergeRun fuel as_ bs
      else if bytesCmp x.1 y.1 == Ordering.lt then x :: twoMergeRun fuel as_ (y :: bs)
      else y :: twoMergeRun fuel (x :: as_) bs

/-- Entry point of the two-way merge. -/
def twoMerge (a b : List (Bytes × Bytes)) : List (Bytes × Bytes) :=
  twoMergeRun (a.length + b.length) a b

/-- The item stream of a `VSsTableIterator` for `Db::scan`
(src/db.rs lines 461-482): seek by the lower bound — `Excluded`
additionally skips a landed-on equal key — then, per visited position,
resolve the value through `update_kv` (resolution is per-position in
the source; this model collects the resolved positions eagerly). -/
def sstScanStream (t : SsTable) (lower : RBound Bytes)
    (vssts : List (Nat × SsTable)) : Except GetErr (List (Bytes × Bytes)) :=
  let positioned : List Entry := match lower with
    | .included key => t.entries.dropWhile (fun e => bytesCmp e.key key == Ordering.lt)
    | .excluded key =>
      let l := t.entries.dropWhile (fun e => bytesCmp e.key key == Ordering.lt)
      match l with
      | e :: rest => if e.key == key then rest else l
      | [] => []
    | .unbounded => t.entries
  positioned.mapM (fun e =>
    (VSsTableIterator.update_kv e vssts).map (fun v => (e.key, v)))

/-- A yielded key satisfies `DbIterator`'s end bound
(src/db_iterator.rs lines 35-39). -/
def withinEnd : RBound Bytes → Bytes → Bool
  | .unbounded, _ => true
  | .included u, k => bytesCmp k u != Ordering.gt
  | .excluded u, k => bytesCmp k u == Ordering.lt

/-- `DbIterator::next_inner` (src/db_iterator.rs lines 29-41): advance
the underlying stream; invalid at its end or past the end bound. -/
def DbIterator.next_inner (rest : List (Bytes × Bytes)) (endB : RBound Bytes) :
    Option ((Bytes × Bytes) × List (Bytes × Bytes)) :=
  match rest with
  | [] => none
  | x :: xs => if withinEnd endB x.1 then some (x, xs) else none

/-- `DbIterator::move_to_non_delete` (src/db_iterator.rs lines 43-48):
skip positions whose value is empty.  The fuel is the remaining stream
length, which the loop cannot exhaust. -/
def DbIterator.move_to_non_delete (endB : RBound Bytes) :
    Nat → (Bytes × Bytes) → List (Bytes × Bytes) →
    Option ((Bytes × Bytes) × List (Bytes × Bytes))
  | 0, cur, rest => if cur.2 != [] then some (cur, rest) else none
  | fuel + 1, cur, rest =>
    if cur.2 != [] then some (cur, rest)
    else
      match DbIterator.next_inner rest endB with
      | none => none
      | some (c, r) => DbIterator.move_to_non_delete endB fuel c r

/-- Items yielded from a valid `DbIterator` position: the current item,
then advance (`next_inner` + `move_to_non_delete`) while valid. -/
def DbIterator.collect (endB : RBound Bytes) :
    Nat → (Bytes × Bytes) → List (Bytes × Bytes) → List (Bytes × Bytes)
  | 0, cur, _ => [cur]
  | fuel + 1, cur, rest =>
    cur :: (match DbIterator.next_inner rest endB with
      | none => []
      | some (c, r) =>
        match DbIterator.move_to_non_delete endB r.length c r with
        | none => []
        | some p => DbIterator.collect endB fuel p.1 p.2)

/-- `DbIterator::new` (src/db_iterator.rs lines 19-27) followed by full
consumption: the initial position is not checked against the end bound,
tombstones are skipped, and iteration stops at the first invalid
position (`FusedIterator` yields nothing further). -/
def DbIterator.run (stream : List (Bytes × Bytes)) (endB : RBound Bytes) :
    List (Bytes × Bytes) :=
  match stream with
  | [] => []
  | c :: rest =>
    match DbIterator.move_to_non_delete endB rest.length c rest with
    | none => []
    | some p => DbIterator.collect endB (p.2.length + 1) p.1 p.2

/-- `Db::scan` (src/db.rs lines 437-491): merge the active and frozen
memtable range iterators, merge the per-table SST streams of every
level (newest first), two-way merge the two, and consume through
`DbIterator` under the upper bound. -/
def Db.scan (s : DbInner) (lower upper : RBound Bytes) :
    Except GetErr (List (Bytes × Bytes)) := do
  let mem_iters := MemTable.scan s.memtable lower upper ::
    (s.frozen_memtable.reverse.map (fun mt => MemTable.scan mt lower upper))
  let mem_iter := kMerge mem_iters
  let sst_iters ← (s.levels.flatMap (fun lvl => lvl.reverse)).mapM
    (fun t => sstScanStream t lower s.vssts)
  let sst_iter := kMerge sst_iters
  .ok (DbIterator.run (twoMerge mem_iter sst_iter) upper)

/-- C9: a key equal to an `Excluded` lower bound is yielded when it
resides in the memtable.  `MemTable::scan` maps an `Excluded` lower
bound to the same `Included` probe key `(key, 64, Get)` as an
`Included` one, and the probe orders before the key's real versions
(every write carries `seq_num = 1 < 64`, and larger seq compares
smaller), so after `put "b" v`, `scan (Excluded "b", Unbounded)` yields
`"b"` — the bound the claim (and `Db::scan`'s own SST-side `Excluded`
handling) says is never yielded. -/
theorem c9_scan_yields_excluded_lower_bound :
    Db.scan (Db.put dbEmpty [98] [118]) (.excluded [98]) .unbounded =
      .ok [([98], [118])] ∧
    MemTable.scan (Db.put dbEmpty [98] [118]).memtable
      (.excluded [98]) .unbounded = [([98], [118])] := by
  decide

lemma memIterCollect_no_empty_key (l : MemTable) (v : Bytes) :
    ([], v) ∉ memIterCollect l := by
  induction l with
  | nil => simp [memIterCollect]
  | cons e rest ih =>
    by_cases h : e.1.user_key = []
    · simp [memIterCollect, h]
    · simp only [memIterCollect, beq_iff_eq, if_neg h, List.mem_cons,
        MemTableIterator.entry_to_item]
      intro hmem
      rcases hmem with hc | hc
      · exact h (congrArg Prod.fst hc).symm
      · exact ih hc

lemma memIterCollect_eq_takeWhile (l : MemTable) :
    memIterCollect l =
      (l.takeWhile (fun e => e.1.user_key != [])).map MemTableIterator.entry_to_item := by
  induction l with
  | nil => simp [memIterCollect]
  | cons e rest ih =>
    by_cases h : e.1.user_key = []
    · simp [memIterCollect, h, List.takeWhile_cons]
    · simp [memIterCollect, h, List.takeWhile_cons, ih]

lemma memIterCollect_length_lt (l : MemTable)
    (h : ∃ e ∈ l, e.1.user_key = []) :
    (memIterCollect l).length < l.length := by
  induction l with
  | nil => simp at h
  | cons e rest ih =>
    by_cases he : e.1.user_key = []
    · simp [memIterCollect, he]
    · obtain ⟨x, hx, hxe⟩ := h
      rcases List.mem_cons.mp hx with rfl | hx
      · exact absurd hxe he
      · have := ih ⟨x, hx, hxe⟩
        simp only [memIterCollect, beq_iff_eq, if_neg he, List.length_cons,
          List.length_map]
        omega

/-- C10: the memtable iterator's end-of-iteration sentinel is the empty
user key — `is_valid` is "current key non-empty" — so if the scanned
range of the memtable holds an entry with the empty user key, the empty
key is never yielded, the yielded items are exactly the range's maximal
prefix of non-empty-key entries (iteration reports invalid at the
empty-key entry and stops before everything after it), and strictly
fewer items than the range holds are yielded. -/
theorem c10_empty_key_sentinel :
    ∀ (mt : MemTable) (lo hi : RBound Key),
    (∃ e ∈ MemTable.range mt lo hi, e.1.user_key = []) →
    (∀ v, ([], v) ∉ memIterCollect (MemTable.range mt lo hi)) ∧
    memIterCollect (MemTable.range mt lo hi) =
      ((MemTable.range mt lo hi).takeWhile
        (fun e => e.1.user_key != [])).map MemTableIterator.entry_to_item ∧
    (memIterCollect (MemTable.range mt lo hi)).length <
      (MemTable.range mt lo hi).length := by
  intro mt lo hi h
  exact ⟨fun v => memIterCollect_no_empty_key _ v,
    memIterCollect_eq_takeWhile _, memIterCollect_length_lt _ h⟩

/-- Witness for C10: a memtable holding an empty-key entry followed by a
normal one, scanned unbounded. -/
theorem c10_empty_key_sentinel_witness :
    ([], [118]) ∉ memIterCollect (MemTable.range
      [(⟨[], 1, .put⟩, [118]), (⟨[97], 1, .put⟩, [97])] .unbounded .unbounded) ∧
    memIterCollect (MemTable.range
      [(⟨[], 1, .put⟩, [118]), (⟨[97], 1, .put⟩, [97])] .unbounded .unbounded) =
      ((MemTable.range
        [(⟨[], 1, .put⟩, [118]), (⟨[97], 1, .put⟩, [97])] .unbounded .unbounded).takeWhile
          (fun e => e.1.user_key != [])).map MemTableIterator.entry_to_item ∧
    (memIterCollect (MemTable.range
      [(⟨[], 1, .put⟩, [118]), (⟨[97], 1, .put⟩, [97])] .unbounded .unbounded)).length <
      (MemTable.range
        [(⟨[], 1, .put⟩, [118]), (⟨[97], 1, .put⟩, [97])] .unbounded .unbounded).length := by
  have h := c10_empty_key_sentinel
    [(⟨[], 1, .put⟩, [118]), (⟨[97], 1, .put⟩, [97])] .unbounded .unbounded
    ⟨(⟨[], 1, .put⟩, [118]), by decide, rfl⟩
  exact ⟨h.1 [118], h.2.1, h.2.2⟩

end LasagneDb
